import Mathlib

/-!
Verification development for the `mlmicrophysics` hyperparameter-search pipeline.

The embedded code is:
* `mlmicrophysics/data.py` — `subset_data_by_date`, the train/validation/test
  date partitioner;
* `scripts/search_ml_model_params.py` — `parse_model_config_params` (with the
  semantics of sklearn's `ParameterSampler`, which it returns),
  `assemble_data_files` (the dataset stager), and the orchestration and
  result-collection phases of `main`.

Rows of the partitioned table are represented by their `subset_col` (time) value,
an integer: every selection the partitioner performs depends only on that column.
Tabular values in the stager are rationals; the scaler objects of
`sklearn.preprocessing` are modelled by their shared shape — a per-column fit
producing a `(center, scale)` pair applied elementwise as `(x - center) / scale` —
and by `check_array`'s rejection of zero-sample inputs.
-/

namespace MLMicro

/-! ## `data.py`: `subset_data_by_date` -/

/-- Insert an integer into a strictly increasing list, keeping it strictly
increasing (duplicates are dropped).  Building block for `npUnique`. -/
def insertUniq (x : Int) : List Int → List Int
  | [] => [x]
  | y :: ys =>
    if x < y then x :: y :: ys
    else if x = y then y :: ys
    else y :: insertUniq x ys

/-- `np.unique`: the sorted list of distinct values of the input. -/
def npUnique (xs : List Int) : List Int := xs.foldr insertUniq []

/-- Helper for `pySlice`: walk the list with a countdown; emit an element when
the countdown reaches `0`, then reset it to `step - 1`. -/
def sliceAux (step : Nat) : List Int → Nat → List Int
  | [], _ => []
  | x :: xs, 0 => x :: sliceAux step xs (step - 1)
  | _ :: xs, c + 1 => sliceAux step xs c

/-- Python list slicing `a[start::step]` for a positive `step`: the elements at
indices `start`, `start + step`, `start + 2*step`, …  (`step = 0` raises in
Python and is guarded by the caller below). -/
def pySlice (xs : List Int) (start step : Nat) : List Int := sliceAux step xs start

/-- `mlmicrophysics.data.subset_data_by_date`.  `data` is the list of rows,
each represented by its `subset_col` value; the result is
`(train_data, validation_data, test_data)` or the raised error. -/
def subset_data_by_date (data : List Int) (train_date_start train_date_end
    test_date_start test_date_end : Int) (validation_frequency : Nat) :
    Except String (List Int × List Int × List Int) :=
  if train_date_start > train_date_end then
    .error "train_date_start should not be greater than train_date_end"
  else if test_date_start > test_date_end then
    .error "test_date_start should not be greater than test_date_end"
  else if train_date_end > test_date_start then
    .error "train and test date periods overlap."
  else if validation_frequency = 0 then
    .error "slice step cannot be zero"
  else
    let train_and_validation_data := data.filter fun d =>
      decide (train_date_start ≤ d) && decide (d ≤ train_date_end)
    let test_data := data.filter fun d =>
      decide (test_date_start ≤ d) && decide (d ≤ test_date_end)
    let train_and_validation_dates := npUnique train_and_validation_data
    let validation_dates :=
      pySlice train_and_validation_dates validation_frequency validation_frequency
    let train_dates := train_and_validation_dates.filter fun d =>
      !(validation_dates.contains d)
    let train_data := data.filter fun d => train_dates.contains d
    let validation_data := data.filter fun d => validation_dates.contains d
    .ok (train_data, validation_data, test_data)

/-! ### Basic lemmas about `npUnique` and `pySlice` -/

theorem mem_insertUniq {a x : Int} : ∀ {l : List Int},
    a ∈ insertUniq x l ↔ a = x ∨ a ∈ l := by
  intro l
  induction l with
  | nil => simp [insertUniq]
  | cons y ys ih =>
    by_cases h1 : x < y
    · simp [insertUniq, h1]
    · by_cases h2 : x = y
      · subst h2
        simp only [insertUniq, if_neg h1, if_pos rfl]
        constructor
        · exact fun h => Or.inr h
        · rintro (rfl | h) <;> simp_all
      · simp only [insertUniq, if_neg h1, if_neg h2, List.mem_cons, ih]
        tauto

theorem sorted_insertUniq {x : Int} : ∀ {l : List Int},
    l.Sorted (· < ·) → (insertUniq x l).Sorted (· < ·) := by
  intro l
  induction l with
  | nil => intro _; simp [insertUniq]
  | cons y ys ih =>
    intro hs
    rw [List.sorted_cons] at hs
    obtain ⟨hy, hys⟩ := hs
    by_cases h1 : x < y
    · rw [insertUniq, if_pos h1, List.sorted_cons]
      refine ⟨?_, ?_⟩
      · intro b hb
        rcases List.mem_cons.mp hb with rfl | hb
        · exact h1
        · exact lt_trans h1 (hy b hb)
      · rw [List.sorted_cons]; exact ⟨hy, hys⟩
    · by_cases h2 : x = y
      · subst h2
        rw [insertUniq, if_neg h1, if_pos rfl, List.sorted_cons]
        exact ⟨hy, hys⟩
      · have hyx : y < x := by
          rcases lt_trichotomy x y with h | h | h
          · exact absurd h h1
          · exact absurd h h2
          · exact h
        rw [insertUniq, if_neg h1, if_neg h2, List.sorted_cons]
        refine ⟨?_, ih hys⟩
        intro b hb
        rcases mem_insertUniq.mp hb with rfl | hb
        · exact hyx
        · exact hy b hb

theorem npUnique_sorted (xs : List Int) : (npUnique xs).Sorted (· < ·) := by
  induction xs with
  | nil => simp [npUnique]
  | cons x xs ih => exact sorted_insertUniq ih

theorem mem_npUnique {a : Int} {xs : List Int} : a ∈ npUnique xs ↔ a ∈ xs := by
  induction xs with
  | nil => simp [npUnique]
  | cons x xs ih =>
    show a ∈ insertUniq x (npUnique xs) ↔ _
    rw [mem_insertUniq, ih]
    simp

theorem npUnique_nodup (xs : List Int) : (npUnique xs).Nodup :=
  (npUnique_sorted xs).nodup

/-- `np.unique` agrees with the specification reading "the distinct keys,
sorted ascending": the sorted list of the finite set of values. -/
theorem npUnique_eq_sort (xs : List Int) :
    npUnique xs = xs.toFinset.sort (· ≤ ·) := by
  refine List.eq_of_perm_of_sorted ?_ ?_ (Finset.sort_sorted _ _)
  · apply (List.perm_ext_iff_of_nodup (npUnique_nodup xs) (Finset.sort_nodup _ _)).2
    intro a
    rw [mem_npUnique, Finset.mem_sort, List.mem_toFinset]
  · exact List.Sorted.le_of_lt (npUnique_sorted xs)

/-- The slice `xs[s::k]` (for `k ≥ 1`) holds at position `j` the element of
`xs` at position `s + j * k`. -/
theorem pySlice_getElem? (k : Nat) (hk : 1 ≤ k) :
    ∀ (xs : List Int) (s j : Nat), (pySlice xs s k)[j]? = xs[s + j * k]? := by
  obtain ⟨m, rfl⟩ : ∃ m, k = m + 1 := ⟨k - 1, by omega⟩
  intro xs
  show ∀ s j, (sliceAux (m + 1) xs s)[j]? = _
  induction xs with
  | nil => intro s j; simp [sliceAux]
  | cons x xs ih =>
    intro s j
    cases s with
    | zero =>
      cases j with
      | zero => simp [sliceAux]
      | succ j =>
        have hidx : 0 + (j + 1) * (m + 1) = (j * (m + 1) + m) + 1 := by
          have h2 : (j + 1) * (m + 1) = j * (m + 1) + (m + 1) := by ring
          omega
        rw [hidx]
        simp only [sliceAux, List.getElem?_cons_succ]
        rw [ih (m + 1 - 1) j]
        congr 1
        omega
    | succ c =>
      simp only [sliceAux]
      rw [ih c j]
      have hidx : c + 1 + j * (m + 1) = (c + j * (m + 1)) + 1 := by omega
      rw [hidx, List.getElem?_cons_succ]

/-- If the slice offset is at least the list length, the slice is empty. -/
theorem pySlice_eq_nil {xs : List Int} {s k : Nat} (h : xs.length ≤ s) :
    pySlice xs s k = [] := by
  show sliceAux k xs s = []
  induction xs generalizing s with
  | nil => simp [sliceAux]
  | cons x xs ih =>
    cases s with
    | zero => simp at h
    | succ c =>
      simp only [sliceAux]
      exact ih (by simpa using Nat.le_of_succ_le_succ h)

theorem pySlice_subset {xs : List Int} {s k : Nat} (hk : 1 ≤ k) :
    ∀ {a : Int}, a ∈ pySlice xs s k → a ∈ xs := by
  intro a ha
  obtain ⟨j, hj⟩ := List.get_of_mem ha
  have hget : (pySlice xs s k)[(j : Nat)]? = some a := by
    rw [List.getElem?_eq_getElem j.isLt]
    simpa using congrArg some hj
  rw [pySlice_getElem? k hk xs s j] at hget
  exact List.getElem?_mem hget

theorem int_contains_iff {l : List Int} {a : Int} : l.contains a = true ↔ a ∈ l :=
  List.elem_iff

/-! ### Claim theorems for the date partitioner -/

theorem subset_error_iff_aux (data : List Int) (ts te us ue : Int)
    (vf : Nat) :
    (∃ e, subset_data_by_date data ts te us ue vf = .error e) ↔
      (te < ts ∨ ue < us ∨ us < te ∨ vf = 0) := by
  unfold subset_data_by_date
  split_ifs with h1 h2 h3 h4
  · simpa using Or.inl h1
  · simpa using Or.inr (Or.inl h2)
  · simpa using Or.inr (Or.inr (Or.inl h3))
  · simpa using Or.inr (Or.inr (Or.inr h4))
  · constructor
    · rintro ⟨e, he⟩
      exact he.elim
    · intro hcon
      rcases hcon with h | h | h | h
      · exact absurd h h1
      · exact absurd h h2
      · exact absurd h h3
      · exact absurd h h4

/-- **C3 (amended).** The partitioner raises exactly when one of the three
date-range checks fails or the slice step is zero: `validation_frequency ≥ 2`
is documented but never validated, so `validation_frequency = 1` is accepted. -/
theorem subset_data_by_date_error_iff (data : List Int) (ts te us ue : Int)
    (vf : Nat) :
    (∃ e, subset_data_by_date data ts te us ue vf = .error e) ↔
      (te < ts ∨ ue < us ∨ us < te ∨ vf = 0) :=
  subset_error_iff_aux data ts te us ue vf

/-- **C3 counterexample.** `validation_frequency = 1` is not an integer `≥ 2`,
yet the partitioner returns a partition instead of raising. -/
theorem subset_data_by_date_vf_one_no_error :
    subset_data_by_date [0, 1, 2] 0 1 2 2 1 = .ok ([0], [1], [2]) := by rfl

/-- Unfolding of the success case of the partitioner. -/
theorem subset_data_by_date_ok (data : List Int) (ts te us ue : Int) (vf : Nat)
    (h1 : ts ≤ te) (h2 : us ≤ ue) (h3 : te ≤ us) (h4 : vf ≠ 0) :
    subset_data_by_date data ts te us ue vf =
      .ok (data.filter fun d =>
             ((npUnique (data.filter fun d =>
                 decide (ts ≤ d) && decide (d ≤ te))).filter fun x =>
               !((pySlice (npUnique (data.filter fun d =>
                   decide (ts ≤ d) && decide (d ≤ te))) vf vf).contains x)).contains d,
           data.filter fun d =>
             (pySlice (npUnique (data.filter fun d =>
               decide (ts ≤ d) && decide (d ≤ te))) vf vf).contains d,
           data.filter fun d => decide (us ≤ d) && decide (d ≤ ue)) := by
  unfold subset_data_by_date
  rw [if_neg (by omega), if_neg (by omega), if_neg (by omega), if_neg h4]

/-- **C2 (confirmed).** On any argument set meeting the preconditions the
partitioner keeps, as validation, exactly the keys at positions
`vf, 2·vf, …` (0-indexed) of the ascending list of distinct train-window
keys, leaves the other train-window keys as train and the test-window rows as
test; on days 1–10 with `train_date_end = 5`, `test_date_start = 6`,
`test_date_end = 10` and `validation_frequency = 3` it yields
train `{1,2,3,5}`, validation `{4}`, test `{6,…,10}`. -/
theorem subset_data_by_date_validation_selection :
    (∀ (data : List Int) (ts te us ue : Int) (vf : Nat),
        ts ≤ te → us ≤ ue → te ≤ us → 1 ≤ vf →
        ∃ valKeys : List Int,
          subset_data_by_date data ts te us ue vf =
            .ok (data.filter fun d =>
                   decide (ts ≤ d) && decide (d ≤ te) && !(valKeys.contains d),
                 data.filter fun d => valKeys.contains d,
                 data.filter fun d => decide (us ≤ d) && decide (d ≤ ue)) ∧
          ∀ j : Nat,
            valKeys[j]? =
              ((data.filter fun d =>
                  decide (ts ≤ d) && decide (d ≤ te)).toFinset.sort (· ≤ ·))[(j + 1) * vf]?) ∧
    subset_data_by_date [1, 2, 3, 4, 5, 6, 7, 8, 9, 10] 1 5 6 10 3 =
      .ok ([1, 2, 3, 5], [4], [6, 7, 8, 9, 10]) := by
  constructor
  · intro data ts te us ue vf h1 h2 h3 h4
    refine ⟨pySlice (npUnique (data.filter fun d =>
      decide (ts ≤ d) && decide (d ≤ te))) vf vf, ?_, ?_⟩
    · rw [subset_data_by_date_ok data ts te us ue vf h1 h2 h3 (by omega)]
      refine congrArg Except.ok (Prod.ext ?_ rfl)
      show List.filter _ data = List.filter _ data
      refine List.filter_congr fun d hd => ?_
      rw [Bool.eq_iff_iff]
      simp only [List.elem_iff, List.mem_filter, mem_npUnique, Bool.and_eq_true,
        decide_eq_true_eq, Bool.not_eq_true']
      tauto
    · intro j
      rw [pySlice_getElem? vf h4, npUnique_eq_sort]
      congr 1
      ring
  · rfl

/-- Witness for the validation-selection theorem: the 10-day scenario of the
claim, with all four preconditions discharged. -/
theorem subset_data_by_date_validation_selection_witness :
    ∃ valKeys : List Int,
      subset_data_by_date [1, 2, 3, 4, 5, 6, 7, 8, 9, 10] 1 5 6 10 3 =
        .ok ([1, 2, 3, 4, 5, 6, 7, 8, 9, 10].filter fun d =>
               decide ((1 : Int) ≤ d) && decide (d ≤ 5) && !(valKeys.contains d),
             [1, 2, 3, 4, 5, 6, 7, 8, 9, 10].filter fun d => valKeys.contains d,
             [1, 2, 3, 4, 5, 6, 7, 8, 9, 10].filter fun d =>
               decide ((6 : Int) ≤ d) && decide (d ≤ 10)) ∧
      ∀ j : Nat,
        valKeys[j]? =
          (([1, 2, 3, 4, 5, 6, 7, 8, 9, 10].filter fun d =>
              decide ((1 : Int) ≤ d) && decide (d ≤ 5)).toFinset.sort (· ≤ ·))[(j + 1) * 3]? :=
  subset_data_by_date_validation_selection.1 [1, 2, 3, 4, 5, 6, 7, 8, 9, 10]
    1 5 6 10 3 (by norm_num) (by norm_num) (by norm_num) (by norm_num)

/-- **C4 (amended).** Train and validation rows are always disjoint, and
whenever the train window ends strictly before the test window starts
(`train_date_end < test_date_start`) the train and validation rows are also
disjoint from the test rows.  At the accepted boundary
`train_date_end = test_date_start` a row dated at the shared boundary can
appear in both a train-side partition and the test partition. -/
theorem subset_data_by_date_disjoint (data : List Int) (ts te us ue : Int)
    (vf : Nat) (tr va tst : List Int)
    (hok : subset_data_by_date data ts te us ue vf = .ok (tr, va, tst)) :
    (∀ x ∈ tr, x ∉ va) ∧
      (te < us → (∀ x ∈ tr, x ∉ tst) ∧ ∀ x ∈ va, x ∉ tst) := by
  by_cases hg : te < ts ∨ ue < us ∨ us < te ∨ vf = 0
  · obtain ⟨e, he⟩ := (subset_error_iff_aux data ts te us ue vf).2 hg
    rw [he] at hok
    exact Except.noConfusion hok
  · push_neg at hg
    obtain ⟨g1, g2, g3, g4⟩ := hg
    rw [subset_data_by_date_ok data ts te us ue vf (by omega) (by omega)
      (by omega) g4] at hok
    injection hok with hok1
    injection hok1 with htr hok2
    injection hok2 with hva htst
    subst htr
    subst hva
    subst htst
    constructor
    · intro x hx hx'
      have hxt := (List.mem_filter.mp hx).2
      have hxv := int_contains_iff.mp (List.mem_filter.mp hx').2
      have hxt' := int_contains_iff.mp hxt
      have hb := (List.mem_filter.mp hxt').2
      simp only [Bool.not_eq_true'] at hb
      have hcontra := int_contains_iff.mpr hxv
      rw [hb] at hcontra
      exact Bool.noConfusion hcontra
    · intro hlt
      constructor
      · intro x hx hx'
        have hxt' := int_contains_iff.mp (List.mem_filter.mp hx).2
        have hxw : x ∈ npUnique (data.filter fun d =>
            decide (ts ≤ d) && decide (d ≤ te)) := (List.mem_filter.mp hxt').1
        have hxle : x ≤ te := by
          have := (List.mem_filter.mp (mem_npUnique.mp hxw)).2
          simp only [Bool.and_eq_true, decide_eq_true_eq] at this
          exact this.2
        have hxge : us ≤ x := by
          have := (List.mem_filter.mp hx').2
          simp only [Bool.and_eq_true, decide_eq_true_eq] at this
          exact this.1
        omega
      · intro x hx hx'
        have hxv := int_contains_iff.mp (List.mem_filter.mp hx).2
        have hxw : x ∈ npUnique (data.filter fun d =>
            decide (ts ≤ d) && decide (d ≤ te)) :=
          pySlice_subset (by omega) hxv
        have hxle : x ≤ te := by
          have := (List.mem_filter.mp (mem_npUnique.mp hxw)).2
          simp only [Bool.and_eq_true, decide_eq_true_eq] at this
          exact this.2
        have hxge : us ≤ x := by
          have := (List.mem_filter.mp hx').2
          simp only [Bool.and_eq_true, decide_eq_true_eq] at this
          exact this.1
        omega

/-- **C4 counterexample.** With `train_date_end = test_date_start = 1` (an
input the preconditions accept) the row dated `1` is returned in both the
train partition and the test partition, so the partitions are not pairwise
disjoint. -/
theorem subset_data_by_date_boundary_overlap :
    ∃ tr va tst,
      subset_data_by_date [0, 1] 0 1 1 1 2 = .ok (tr, va, tst) ∧
        ∃ x, x ∈ tr ∧ x ∈ tst :=
  ⟨[0, 1], [], [1], rfl, 1, by decide, by decide⟩

/-- Witness for the disjointness theorem at a concrete valid input with
`train_date_end < test_date_start`. -/
theorem subset_data_by_date_disjoint_witness :
    (∀ x ∈ ([0, 1] : List Int), x ∉ ([] : List Int)) ∧
      ((1 : Int) < 2 → (∀ x ∈ ([0, 1] : List Int), x ∉ ([2] : List Int)) ∧
        ∀ x ∈ ([] : List Int), x ∉ ([2] : List Int)) :=
  subset_data_by_date_disjoint [0, 1, 2] 0 1 2 2 2 [0, 1] [] [2] rfl

/-- **C9 (confirmed).** When the train window contains at most
`validation_frequency` distinct keys, the validation partition is empty and
the train partition is exactly the train-window rows. -/
theorem subset_data_by_date_small_window (data : List Int) (ts te us ue : Int)
    (vf : Nat) (h1 : ts ≤ te) (h2 : us ≤ ue) (h3 : te ≤ us) (h4 : 1 ≤ vf)
    (hsmall : (npUnique (data.filter fun d =>
        decide (ts ≤ d) && decide (d ≤ te))).length ≤ vf) :
    subset_data_by_date data ts te us ue vf =
      .ok (data.filter fun d => decide (ts ≤ d) && decide (d ≤ te), [],
           data.filter fun d => decide (us ≤ d) && decide (d ≤ ue)) := by
  rw [subset_data_by_date_ok data ts te us ue vf h1 h2 h3 (by omega)]
  rw [pySlice_eq_nil hsmall]
  refine congrArg Except.ok (Prod.ext ?_ (Prod.ext ?_ rfl))
  · show List.filter _ data = List.filter _ data
    refine List.filter_congr fun d hd => ?_
    rw [Bool.eq_iff_iff]
    simp only [List.elem_iff, List.mem_filter, mem_npUnique, Bool.and_eq_true,
      decide_eq_true_eq, Bool.not_eq_true']
    tauto
  · show List.filter _ data = []
    have : ∀ d : Int, (([] : List Int).contains d) = false := fun d => rfl
    simp [this]

/-- Witness for the small-window theorem: three days, train window `[1,2]`,
`validation_frequency = 3` — validation is empty. -/
theorem subset_data_by_date_small_window_witness :
    subset_data_by_date [1, 2, 3] 1 2 3 3 3 =
      .ok ([1, 2, 3].filter fun d => decide ((1 : Int) ≤ d) && decide (d ≤ 2), [],
           [1, 2, 3].filter fun d => decide ((3 : Int) ≤ d) && decide (d ≤ 3)) :=
  subset_data_by_date_small_window [1, 2, 3] 1 2 3 3 3 (by norm_num) (by norm_num)
    (by norm_num) (by norm_num) (by decide)

/-! ## `search_ml_model_params.py`: the result-collection loop of `main` -/

/-- The collection loop of `main`
(`for out in as_completed(submissions): result = out.result(); …append(…)`).
`completed` is the sequence of finished futures in completion order, each
carrying its model name and either the task's returned entry (abstracted to
an integer payload) or the exception the task raised.  `out.result()`
re-raises a failed task's exception, which propagates out of the loop. -/
def collect_results : List (String × Except String Int) →
    Except String (List (String × Int))
  | [] => .ok []
  | (_, .error e) :: _ => .error e
  | (name, .ok v) :: rest =>
    match collect_results rest with
    | .error e => .error e
    | .ok acc => .ok ((name, v) :: acc)

theorem collect_results_first_error (name e : String)
    (post : List (String × Except String Int)) :
    ∀ pre, (∀ p ∈ pre, p.2.isOk = true) →
      collect_results (pre ++ (name, .error e) :: post) = .error e := by
  intro pre
  induction pre with
  | nil => intro _; rfl
  | cons p pre ih =>
    intro hok
    obtain ⟨n, r⟩ := p
    cases r with
    | error e' =>
      have := hok (n, .error e') (by simp)
      simp [Except.isOk, Except.toBool] at this
    | ok v =>
      have hrest := ih fun q hq => hok q (by simp [hq])
      simp only [List.cons_append, collect_results, List.append_eq, hrest]

/-- **C1 (amended).** If every completed task succeeded, the collection loop
records exactly one entry per submitted task, in completion order.  If any
task failed, `out.result()` re-raises the first failure (in completion
order) and the loop aborts the run: no failure entry is recorded anywhere
and the remaining tasks' results are never collected. -/
theorem collect_results_behavior (completed : List (String × Except String Int)) :
    ((∀ p ∈ completed, p.2.isOk = true) →
      collect_results completed =
        .ok (completed.map fun p => (p.1, p.2.toOption.getD 0))) ∧
    ∀ pre name e post,
      completed = pre ++ (name, Except.error e) :: post →
      (∀ p ∈ pre, p.2.isOk = true) →
      collect_results completed = .error e := by
  constructor
  · induction completed with
    | nil => intro _; rfl
    | cons p rest ih =>
      intro hok
      obtain ⟨n, r⟩ := p
      cases r with
      | error e' =>
        have := hok (n, .error e') (by simp)
        simp [Except.isOk, Except.toBool] at this
      | ok v =>
        have hrest := ih fun q hq => hok q (by simp [hq])
        simp only [collect_results, hrest, List.map_cons]
        rfl
  · intro pre name e post heq hpre
    subst heq
    exact collect_results_first_error name e post pre hpre

/-- Witness for the collection-loop theorem: an all-success run and a run
whose second task failed, with the hypotheses discharged concretely. -/
theorem collect_results_behavior_witness :
    collect_results [("rf", .ok 3), ("nn", .ok 5)] =
      .ok (([("rf", .ok 3), ("nn", .ok 5)] : List (String × Except String Int)).map
        fun p => (p.1, p.2.toOption.getD 0)) ∧
    collect_results [("rf", .ok 3), ("nn", .error "ValueError"), ("rf", .ok 7)] =
      .error "ValueError" :=
  ⟨(collect_results_behavior [("rf", .ok 3), ("nn", .ok 5)]).1 (by decide),
   (collect_results_behavior
      [("rf", .ok 3), ("nn", .error "ValueError"), ("rf", .ok 7)]).2
     [("rf", .ok 3)] "nn" "ValueError" [("rf", .ok 7)] rfl (by decide)⟩

/-- **C1 counterexample.** With a failing task followed by a succeeding one,
the collection loop re-raises the failure: the run aborts, the successful
task's result is never recorded, and the stream does not yield one entry per
submitted task. -/
theorem collect_results_abort_on_failure :
    collect_results [("nn", .error "ValueError: loss diverged"), ("rf", .ok 1)] =
      .error "ValueError: loss diverged" := rfl

/-! ## `search_ml_model_params.py`: `parse_model_config_params` -/

/-- A scalar occurring in a parameter specification or a sampled
configuration: a string (distribution names) or a number.  Continuous values
are abstracted to integers; the claims under study concern only the shape of
the sampled sequence, never the numeric law of a draw. -/
inductive ConfigVal
  | str (s : String)
  | num (n : Int)
deriving DecidableEq

/-- One `models.<name>` entry of the YAML configuration: each parameter maps
to a list, e.g. `["uniform", 0, 1]` or a literal list of values. -/
abbrev ParamSpec := List (String × List ConfigVal)

/-- The dispatch test of `parse_model_config_params`:
`param_value[0] in ["randint", "expon", "uniform"]`. -/
def isDistSpec (pv : List ConfigVal) : Bool :=
  match pv with
  | .str s :: _ => s == "randint" || s == "expon" || s == "uniform"
  | _ => false

/-- sklearn `ParameterSampler`: true when every parameter is a literal list,
in which case the sampler enumerates the grid and samples it without
replacement. -/
def allLists (spec : ParamSpec) : Bool := spec.all fun p => !(isDistSpec p.2)

/-- sklearn `ParameterGrid`: every combination of the literal lists. -/
def paramGrid : ParamSpec → List (List (String × ConfigVal))
  | [] => [[]]
  | (name, vals) :: rest =>
    vals.flatMap fun v => (paramGrid rest).map fun c => (name, v) :: c

/-- One draw for one parameter in the distribution branch: a literal list is
indexed uniformly per draw (`v[rng.randint(len(v))]`); a named
distribution's value is derived from the generator output. -/
def drawParam (pv : List ConfigVal) (r : Nat) : ConfigVal :=
  if isDistSpec pv then
    match pv with
    | .str "randint" :: .num lo :: .num hi :: _ => .num (lo + (r : Int) % (hi - lo))
    | _ => .num r
  else pv.getD (r % pv.length) (.num 0)

/-- numpy's `sample_without_replacement`: repeatedly pick a remaining value
and remove it from the pool.  `rng` abstracts the seeded random state. -/
def swrAux (rng : Nat → Nat) : Nat → List Nat → Nat → List Nat
  | 0, _, _ => []
  | _ + 1, [], _ => []
  | k + 1, x :: xs, c =>
    let i := rng c % (x :: xs).length
    (x :: xs).getD i 0 :: swrAux rng k ((x :: xs).eraseIdx i) (c + 1)

/-- Sample `k` distinct values out of `0, …, n-1`. -/
def sampleWithoutReplacement (n k : Nat) (rng : Nat → Nat) : List Nat :=
  swrAux rng k (List.range n) 0

/-- `parse_model_config_params`, composed with the iteration semantics of
the sklearn `ParameterSampler` it returns (sklearn 0.2x, the era of this
script): when at least one parameter is a named distribution, each of the
`n_iter` draws samples every parameter independently — with replacement
across draws; when every parameter is a literal list, the sampler enumerates
the parameter grid and samples grid cells without replacement, raising
`ValueError` if the grid is smaller than `n_iter`.  `rng` abstracts the
seeded `np.random.RandomState` passed in by `main`. -/
def parse_model_config_params (model_params : ParamSpec) (num_settings : Nat)
    (rng : Nat → Nat) : Except String (List (List (String × ConfigVal))) :=
  if allLists model_params then
    if (paramGrid model_params).length < num_settings then
      .error "The total space of parameters is smaller than n_iter. Try with ParameterGrid."
    else
      .ok ((sampleWithoutReplacement (paramGrid model_params).length num_settings rng).map
        fun i => (paramGrid model_params).getD i [])
  else
    .ok ((List.range num_settings).map fun i =>
      model_params.mapIdx fun j p =>
        (p.1, drawParam p.2 (rng (i * model_params.length + j))))

theorem swrAux_length (rng : Nat → Nat) :
    ∀ (k : Nat) (pool : List Nat) (c : Nat), k ≤ pool.length →
      (swrAux rng k pool c).length = k := by
  intro k
  induction k with
  | zero => intro pool c _; simp [swrAux]
  | succ k ih =>
    intro pool c hk
    cases pool with
    | nil => simp at hk
    | cons x xs =>
      simp only [swrAux, List.length_cons]
      have hi : rng c % (xs.length + 1) < xs.length + 1 := Nat.mod_lt _ (by omega)
      have hlen : ((x :: xs).eraseIdx (rng c % (xs.length + 1))).length = xs.length := by
        rw [List.length_eraseIdx]
        simp only [List.length_cons]
        rw [if_pos hi]
        omega
      rw [ih _ _ (by rw [hlen]; simpa using hk)]

theorem swrAux_subset (rng : Nat → Nat) :
    ∀ (k : Nat) (pool : List Nat) (c : Nat),
      ∀ a ∈ swrAux rng k pool c, a ∈ pool := by
  intro k
  induction k with
  | zero => intro pool c a ha; simp [swrAux] at ha
  | succ k ih =>
    intro pool c a ha
    cases pool with
    | nil => simp [swrAux] at ha
    | cons x xs =>
      simp only [swrAux, List.mem_cons] at ha
      have hi : rng c % (x :: xs).length < (x :: xs).length :=
        Nat.mod_lt _ (by simp)
      rcases ha with rfl | ha
      · rw [List.getD_eq_getElem _ _ hi]
        exact List.getElem_mem hi
      · exact (List.eraseIdx_sublist (x :: xs) _).subset (ih _ _ a ha)

theorem getD_not_mem_eraseIdx {l : List Nat} (hn : l.Nodup) {i : Nat}
    (hi : i < l.length) : l.getD i 0 ∉ l.eraseIdx i := by
  rw [List.getD_eq_getElem _ _ hi]
  intro hmem
  have hmem' : l[i] ∈ l.erase l[i] := (List.erase_getElem hi).mem_iff.mpr hmem
  rw [hn.mem_erase_iff] at hmem'
  exact hmem'.1 rfl

theorem swrAux_nodup (rng : Nat → Nat) :
    ∀ (k : Nat) (pool : List Nat) (c : Nat), pool.Nodup →
      (swrAux rng k pool c).Nodup := by
  intro k
  induction k with
  | zero => intro pool c _; simp [swrAux]
  | succ k ih =>
    intro pool c hn
    cases pool with
    | nil => simp [swrAux]
    | cons x xs =>
      simp only [swrAux, List.nodup_cons]
      have hi : rng c % (x :: xs).length < (x :: xs).length :=
        Nat.mod_lt _ (by simp)
      refine ⟨?_, ih _ _ ((hn.sublist (List.eraseIdx_sublist _ _) : _))⟩
      intro hmem
      exact getD_not_mem_eraseIdx hn hi
        (swrAux_subset rng k _ _ _ hmem)

/-- **C5 (amended).** If at least one parameter is a named distribution, the
`count` draws are independent and with replacement — the sequence always has
length `count` and duplicate configurations are kept (the final conjunct
shows a duplicated pair surviving).  If instead every parameter is a literal
list, sklearn's `ParameterSampler` samples the parameter grid *without*
replacement: the chosen grid indices are pairwise distinct, and a `count`
larger than the grid raises `ValueError` instead of yielding `count`
configurations. -/
theorem parse_model_config_params_sampling (model_params : ParamSpec)
    (num_settings : Nat) (rng : Nat → Nat) :
    ((allLists model_params = false →
      ∃ cfgs, parse_model_config_params model_params num_settings rng = .ok cfgs ∧
        cfgs.length = num_settings) ∧
    (allLists model_params = true →
      ((paramGrid model_params).length < num_settings →
        parse_model_config_params model_params num_settings rng =
          .error "The total space of parameters is smaller than n_iter. Try with ParameterGrid.") ∧
      (num_settings ≤ (paramGrid model_params).length →
        ∃ idxs : List Nat, parse_model_config_params model_params num_settings rng =
            .ok (idxs.map fun i => (paramGrid model_params).getD i []) ∧
          idxs.Nodup ∧ idxs.length = num_settings ∧
          ∀ i ∈ idxs, i < (paramGrid model_params).length))) ∧
    parse_model_config_params [("lr", [ConfigVal.str "uniform", ConfigVal.num 0,
        ConfigVal.num 1])] 2 (fun _ => 5) =
      .ok [[("lr", ConfigVal.num 5)], [("lr", ConfigVal.num 5)]] := by
  refine ⟨⟨?_, ?_⟩, rfl⟩
  · intro h
    rw [parse_model_config_params, if_neg (by simp [h])]
    exact ⟨_, rfl, by simp⟩
  · intro h
    constructor
    · intro hlt
      rw [parse_model_config_params, if_pos (by simp [h]), if_pos hlt]
    · intro hle
      refine ⟨sampleWithoutReplacement (paramGrid model_params).length num_settings rng,
        ?_, ?_, ?_, ?_⟩
      · rw [parse_model_config_params, if_pos (by simp [h]),
          if_neg (by omega)]
      · exact swrAux_nodup rng _ _ _ (List.nodup_range _)
      · rw [sampleWithoutReplacement, swrAux_length rng _ _ _ (by simpa using hle)]
      · intro i hi
        have := swrAux_subset rng _ _ _ i hi
        simpa using List.mem_range.mp (by simpa using this)

/-- Witness for the sampling theorem: a distribution-bearing specification
yields exactly `count` configurations, and an all-lists specification with a
large enough grid yields distinct grid indices. -/
theorem parse_model_config_params_sampling_witness :
    (∃ cfgs, parse_model_config_params
        [("lr", [ConfigVal.str "uniform", ConfigVal.num 0, ConfigVal.num 1])] 4
        (fun n => n) = .ok cfgs ∧ cfgs.length = 4) ∧
    ∃ idxs : List Nat, parse_model_config_params
        [("max_depth", [ConfigVal.num 1, ConfigVal.num 2])] 2 (fun n => n) =
          .ok (idxs.map fun i =>
            (paramGrid [("max_depth", [ConfigVal.num 1, ConfigVal.num 2])]).getD i []) ∧
      idxs.Nodup ∧ idxs.length = 2 ∧
      ∀ i ∈ idxs, i < (paramGrid [("max_depth", [ConfigVal.num 1, ConfigVal.num 2])]).length :=
  ⟨(parse_model_config_params_sampling
      [("lr", [ConfigVal.str "uniform", ConfigVal.num 0, ConfigVal.num 1])] 4
      (fun n => n)).1.1 (by decide),
   ((parse_model_config_params_sampling
      [("max_depth", [ConfigVal.num 1, ConfigVal.num 2])] 2
      (fun n => n)).1.2 (by decide)).2 (by decide)⟩

/-- **C5 counterexample.** Every parameter of this specification is a
literal list and the grid (2 cells) is smaller than the requested count (3):
the sampler raises instead of returning a length-3 sequence, so the draws
are not with replacement. -/
theorem parse_model_config_params_grid_exhausted :
    parse_model_config_params
      [("max_depth", [ConfigVal.num 1]), ("n_estimators", [ConfigVal.num 2, ConfigVal.num 3])]
      3 (fun _ => 0) =
      .error "The total space of parameters is smaller than n_iter. Try with ParameterGrid." := rfl

/-! ## `search_ml_model_params.py`: `assemble_data_files` -/

/-- A csv file already read by `pd.read_csv`: named columns and rows of
rational cells, each row listing its cells in column order. -/
structure DataFrame where
  columns : List String
  rows : List (List Rat)

/-- The value of column `c` in a row `r` of a frame whose column names are
`cols`. -/
def rowCell (cols : List String) (r : List Rat) (c : String) : Rat :=
  match cols.findIdx? (· == c) with
  | some i => r.getD i 0
  | none => 0

/-- `data.loc[data["NC_TAU_in"] >= 10]`: the stager's fixed row-inclusion
filter — the column name and the threshold are written into the function. -/
def filterFileRows (df : DataFrame) : List (List Rat) :=
  df.rows.filter fun r => decide ((10 : Rat) ≤ rowCell df.columns r "NC_TAU_in")

/-- The body of the per-file loop of `assemble_data_files`: filter the rows
on `NC_TAU_in`, then project the input and the output columns
(`data[input_cols]`, `data[output_cols]`, which reorder the cells into the
requested column order); a requested column absent from the file raises
`KeyError`. -/
def readFile (input_cols output_cols : List String) (df : DataFrame) :
    Except String (List (List Rat) × List (List Rat)) :=
  if ¬ "NC_TAU_in" ∈ df.columns then .error "KeyError: NC_TAU_in"
  else if ¬ input_cols.all (df.columns.contains ·) then
    .error "KeyError: input columns not in index"
  else if ¬ output_cols.all (df.columns.contains ·) then
    .error "KeyError: output columns not in index"
  else
    .ok ((filterFileRows df).map fun r => input_cols.map (rowCell df.columns r),
         (filterFileRows df).map fun r => output_cols.map (rowCell df.columns r))

/-- The `for filename in files` loop, accumulating each file's projected
input and output frames in order. -/
def readFiles (input_cols output_cols : List String) :
    List DataFrame → Except String (List (List (List Rat) × List (List Rat)))
  | [] => .ok []
  | df :: rest =>
    match readFile input_cols output_cols df with
    | .error e => .error e
    | .ok p =>
      match readFiles input_cols output_cols rest with
      | .error e => .error e
      | .ok ps => .ok (p :: ps)

/-- One step of the transform loops
(`combined.loc[:, var] = transforms[transform_name](combined[var])`): look
the transform up by name and the column up by position (`KeyError` when
either is absent), then apply the function elementwise down that column.
`tdict` is the module-level `transforms` dictionary; the repo's
`log10_transform` and `neg_log10_transform` are imported from a module
revision not present under `src/`, so the dictionary is kept as a parameter
of elementwise column maps — exactly what the spec requires of a "named
per-column transform". -/
def applyTransform (cols : List String) (tdict : List (String × (Rat → Rat)))
    (m : List (List Rat)) (vt : String × String) :
    Except String (List (List Rat)) :=
  match (tdict.find? fun p => p.1 == vt.2).map Prod.snd with
  | none => .error "KeyError: unknown transform"
  | some t =>
    match cols.findIdx? (· == vt.1) with
    | none => .error "KeyError: transform column not in index"
    | some i => .ok (m.map fun r => r.set i (t (r.getD i 0)))

/-- The `for var, transform_name in …_transforms.items()` loop. -/
def applyTransforms (cols : List String) (tdict : List (String × (Rat → Rat))) :
    List (String × String) → List (List Rat) → Except String (List (List Rat))
  | [], m => .ok m
  | vt :: rest, m =>
    match applyTransform cols tdict m vt with
    | .error e => .error e
    | .ok m2 => applyTransforms cols tdict rest m2

/-- Column-wise application `(x - center) / scale` — the shared shape of the
four `sklearn.preprocessing` scalers the script offers. -/
def applyScalerParams (ps : List (Rat × Rat)) (m : List (List Rat)) :
    List (List Rat) :=
  m.map fun r => List.zipWith (fun p x => (x - p.1) / p.2) ps r

/-- Estimate the per-column `(center, scale)` parameters from the data;
`fitFn` is the scaler family's per-column rule (e.g. `minMaxFit`). -/
def fitColumnParams (fitFn : List Rat → Rat × Rat) (ncols : Nat)
    (m : List (List Rat)) : List (Rat × Rat) :=
  (List.range ncols).map fun j => fitFn (m.map fun r => r.getD j 0)

/-- `scaler.fit_transform` (when `train`) and `scaler.transform` (otherwise),
including sklearn `check_array`'s rejection of zero-sample inputs and the
`NotFittedError` raised by transforming with an unfitted scaler. -/
def scaleData (fitFn : List Rat → Rat × Rat) (pre : Option (List (Rat × Rat)))
    (train : Bool) (ncols : Nat) (m : List (List Rat)) :
    Except String (List (List Rat)) :=
  if m.isEmpty then
    .error "ValueError: Found array with 0 sample(s) while a minimum of 1 is required."
  else if train then .ok (applyScalerParams (fitColumnParams fitFn ncols m) m)
  else
    match pre with
    | none => .error "NotFittedError"
    | some ps => .ok (applyScalerParams ps m)

/-- `MinMaxScaler`'s per-column fit: center `min`, scale `max - min`
(sklearn maps a zero range to scale 1). -/
def minMaxFit (col : List Rat) : Rat × Rat :=
  match col with
  | [] => (0, 1)
  | x :: xs =>
    let lo := xs.foldl min x
    let hi := xs.foldl max x
    (lo, if hi - lo = 0 then 1 else hi - lo)

/-- `assemble_data_files(files, input_cols, output_cols, input_transforms,
output_transforms, input_scaler, output_scaler, train)`.  A scaler object is
represented by its per-column fit rule together with its already-fitted
parameters (`none` while unfitted); `pd.concat` raises on an empty frame
list. -/
def assemble_data_files (files : List DataFrame)
    (input_cols output_cols : List String)
    (input_transforms output_transforms : List (String × String))
    (tdict : List (String × (Rat → Rat)))
    (inputFit outputFit : List Rat → Rat × Rat)
    (inputPre outputPre : Option (List (Rat × Rat))) (train : Bool) :
    Except String (List (List Rat) × List (List Rat)) :=
  match readFiles input_cols output_cols files with
  | .error e => .error e
  | .ok pairs =>
    if pairs.isEmpty then .error "ValueError: No objects to concatenate"
    else
      match applyTransforms input_cols tdict input_transforms
          (pairs.map Prod.fst).flatten with
      | .error e => .error e
      | .ok ti =>
        match applyTransforms output_cols tdict output_transforms
            (pairs.map Prod.snd).flatten with
        | .error e => .error e
        | .ok tout =>
          match scaleData inputFit inputPre train input_cols.length ti with
          | .error e => .error e
          | .ok si =>
            match scaleData outputFit outputPre train output_cols.length tout with
            | .error e => .error e
            | .ok so => .ok (si, so)

/-- The surviving examples: every row of every file passing the `NC_TAU_in`
filter, tagged with its file's column names, in file order. -/
def survivingRows (files : List DataFrame) : List (List String × List Rat) :=
  (files.map fun df => (filterFileRows df).map fun r => (df.columns, r)).flatten

theorem readFile_ok_eq {ic oc : List String} {df : DataFrame}
    {p : List (List Rat) × List (List Rat)}
    (h : readFile ic oc df = .ok p) :
    p = ((filterFileRows df).map fun r => ic.map (rowCell df.columns r),
         (filterFileRows df).map fun r => oc.map (rowCell df.columns r)) := by
  unfold readFile at h
  split_ifs at h
  all_goals first
    | exact Except.noConfusion h
    | (injection h with h; exact h.symm)

theorem readFiles_ok_shape {ic oc : List String} :
    ∀ {files : List DataFrame}
      {pairs : List (List (List Rat) × List (List Rat))},
      readFiles ic oc files = .ok pairs →
      pairs.map Prod.fst =
        (files.map fun df => (filterFileRows df).map fun r =>
          ic.map (rowCell df.columns r)) ∧
      pairs.map Prod.snd =
        (files.map fun df => (filterFileRows df).map fun r =>
          oc.map (rowCell df.columns r)) ∧
      pairs.length = files.length := by
  intro files
  induction files with
  | nil =>
    intro pairs h
    simp only [readFiles] at h
    injection h with h
    subst h
    exact ⟨rfl, rfl, rfl⟩
  | cons df rest ih =>
    intro pairs h
    simp only [readFiles] at h
    cases h1 : readFile ic oc df with
    | error e => rw [h1] at h; exact Except.noConfusion h
    | ok p =>
      rw [h1] at h
      cases h2 : readFiles ic oc rest with
      | error e => rw [h2] at h; exact Except.noConfusion h
      | ok ps =>
        rw [h2] at h
        injection h with h
        subst h
        obtain ⟨ha, hb, hc⟩ := ih h2
        have hp := readFile_ok_eq h1
        subst hp
        exact ⟨by simp [ha], by simp [hb], by simp [hc]⟩

theorem applyTransform_ok_map {cols : List String}
    {tdict : List (String × (Rat → Rat))} {m m2 : List (List Rat)}
    {vt : String × String} (h : applyTransform cols tdict m vt = .ok m2) :
    ∃ f : List Rat → List Rat, m2 = m.map f := by
  unfold applyTransform at h
  split at h
  · exact Except.noConfusion h
  · split at h
    · exact Except.noConfusion h
    · injection h with h
      exact ⟨_, h.symm⟩

theorem applyTransforms_ok_map {cols : List String}
    {tdict : List (String × (Rat → Rat))} :
    ∀ {ts : List (String × String)} {m m' : List (List Rat)},
      applyTransforms cols tdict ts m = .ok m' →
      ∃ F : List Rat → List Rat, m' = m.map F := by
  intro ts
  induction ts with
  | nil =>
    intro m m' h
    simp only [applyTransforms] at h
    injection h with h
    exact ⟨id, by simp [← h]⟩
  | cons vt rest ih =>
    intro m m' h
    simp only [applyTransforms] at h
    cases h1 : applyTransform cols tdict m vt with
    | error e => rw [h1] at h; exact Except.noConfusion h
    | ok m2 =>
      rw [h1] at h
      obtain ⟨G, hG⟩ := ih h
      obtain ⟨f, hf⟩ := applyTransform_ok_map h1
      exact ⟨G ∘ f, by rw [hG, hf, List.map_map]⟩

theorem scaleData_ok_map {fitFn : List Rat → Rat × Rat}
    {pre : Option (List (Rat × Rat))} {train : Bool} {ncols : Nat}
    {m m' : List (List Rat)} (h : scaleData fitFn pre train ncols m = .ok m') :
    ∃ F : List Rat → List Rat, m' = m.map F := by
  unfold scaleData at h
  by_cases he : m.isEmpty
  · rw [if_pos he] at h
    exact Except.noConfusion h
  · rw [if_neg he] at h
    by_cases ht : train = true
    · rw [if_pos ht] at h
      injection h with h
      refine ⟨fun r => List.zipWith (fun p x => (x - p.1) / p.2)
        (fitColumnParams fitFn ncols m) r, ?_⟩
      rw [← h]
      rfl
    · rw [if_neg ht] at h
      cases pre with
      | none => exact Except.noConfusion h
      | some ps =>
        injection h with h
        refine ⟨fun r => List.zipWith (fun p x => (x - p.1) / p.2) ps r, ?_⟩
        rw [← h]
        rfl

theorem survivingRows_map (files : List DataFrame)
    (g : List String × List Rat → List Rat) :
    (survivingRows files).map g =
      (files.map fun df => (filterFileRows df).map fun r =>
        g (df.columns, r)).flatten := by
  unfold survivingRows
  rw [List.map_flatten, List.map_map]
  congr 1
  refine List.map_congr_left fun df _ => ?_
  simp [Function.comp, List.map_map]

/-- Structure of any successful staging call: both returned matrices are
images of the one list of surviving rows. -/
theorem assemble_data_files_ok_maps (files : List DataFrame)
    (input_cols output_cols : List String)
    (input_transforms output_transforms : List (String × String))
    (tdict : List (String × (Rat → Rat)))
    (inputFit outputFit : List Rat → Rat × Rat)
    (inputPre outputPre : Option (List (Rat × Rat))) (train : Bool)
    (im om : List (List Rat))
    (hok : assemble_data_files files input_cols output_cols input_transforms
      output_transforms tdict inputFit outputFit inputPre outputPre train =
      .ok (im, om)) :
    ∃ F G : List String × List Rat → List Rat,
      im = (survivingRows files).map F ∧ om = (survivingRows files).map G ∧
      im.length = om.length := by
  unfold assemble_data_files at hok
  cases h1 : readFiles input_cols output_cols files with
  | error e => rw [h1] at hok; exact Except.noConfusion hok
  | ok pairs =>
    rw [h1] at hok
    dsimp only at hok
    obtain ⟨ha, hb, -⟩ := readFiles_ok_shape h1
    by_cases hemp : pairs.isEmpty
    · rw [if_pos hemp] at hok; exact Except.noConfusion hok
    · rw [if_neg hemp] at hok
      cases h2 : applyTransforms input_cols tdict input_transforms
          (pairs.map Prod.fst).flatten with
      | error e => rw [h2] at hok; exact Except.noConfusion hok
      | ok ti =>
        rw [h2] at hok
        dsimp only at hok
        cases h3 : applyTransforms output_cols tdict output_transforms
            (pairs.map Prod.snd).flatten with
        | error e => rw [h3] at hok; exact Except.noConfusion hok
        | ok tout =>
          rw [h3] at hok
          dsimp only at hok
          cases h4 : scaleData inputFit inputPre train input_cols.length ti with
          | error e => rw [h4] at hok; exact Except.noConfusion hok
          | ok si =>
            rw [h4] at hok
            dsimp only at hok
            cases h5 : scaleData outputFit outputPre train output_cols.length tout with
            | error e => rw [h5] at hok; exact Except.noConfusion hok
            | ok so =>
              rw [h5] at hok
              dsimp only at hok
              injection hok with hok
              injection hok with him hom
              subst him
              subst hom
              obtain ⟨Ft, hFt⟩ := applyTransforms_ok_map h2
              obtain ⟨Gt, hGt⟩ := applyTransforms_ok_map h3
              obtain ⟨Fs, hFs⟩ := scaleData_ok_map h4
              obtain ⟨Gs, hGs⟩ := scaleData_ok_map h5
              have hin : (pairs.map Prod.fst).flatten =
                  (survivingRows files).map fun pr =>
                    input_cols.map (rowCell pr.1 pr.2) := by
                rw [ha, survivingRows_map]
              have hout : (pairs.map Prod.snd).flatten =
                  (survivingRows files).map fun pr =>
                    output_cols.map (rowCell pr.1 pr.2) := by
                rw [hb, survivingRows_map]
              refine ⟨Fs ∘ Ft ∘ (fun pr => input_cols.map (rowCell pr.1 pr.2)),
                Gs ∘ Gt ∘ (fun pr => output_cols.map (rowCell pr.1 pr.2)),
                ?_, ?_, ?_⟩
              · rw [hFs, hFt, hin, List.map_map, List.map_map]
                rfl
              · rw [hGs, hGt, hout, List.map_map, List.map_map]
                rfl
              · rw [hFs, hFt, hin, hGs, hGt, hout]
                simp [List.length_map]

/-- **C6 (confirmed).** Whenever the stager returns, the input and output
matrices have the same number of rows, and they are row-aligned: both are
images, under fixed per-row maps, of the single list of surviving examples,
so each row index refers to the same surviving example in both matrices. -/
theorem assemble_data_files_row_aligned (files : List DataFrame)
    (input_cols output_cols : List String)
    (input_transforms output_transforms : List (String × String))
    (tdict : List (String × (Rat → Rat)))
    (inputFit outputFit : List Rat → Rat × Rat)
    (inputPre outputPre : Option (List (Rat × Rat))) (train : Bool)
    (im om : List (List Rat))
    (hok : assemble_data_files files input_cols output_cols input_transforms
      output_transforms tdict inputFit outputFit inputPre outputPre train =
      .ok (im, om)) :
    ∃ F G : List String × List Rat → List Rat,
      im = (survivingRows files).map F ∧ om = (survivingRows files).map G ∧
      im.length = om.length :=
  assemble_data_files_ok_maps files input_cols output_cols input_transforms
    output_transforms tdict inputFit outputFit inputPre outputPre train im om hok

/-- Witness for the row-alignment theorem on a concrete staging call. -/
theorem assemble_data_files_row_aligned_witness :
    ∃ F G : List String × List Rat → List Rat,
      [[((3 : Rat) - 0) / 1], [((5 : Rat) - 0) / 1]] =
        (survivingRows [⟨["NC_TAU_in", "a", "b"],
          [[9, 1, 2], [10, 3, 4], [11, 5, 6]]⟩]).map F ∧
      [[((4 : Rat) - 0) / 1], [((6 : Rat) - 0) / 1]] =
        (survivingRows [⟨["NC_TAU_in", "a", "b"],
          [[9, 1, 2], [10, 3, 4], [11, 5, 6]]⟩]).map G ∧
      ([[((3 : Rat) - 0) / 1], [((5 : Rat) - 0) / 1]] : List (List Rat)).length =
        ([[((4 : Rat) - 0) / 1], [((6 : Rat) - 0) / 1]] : List (List Rat)).length :=
  assemble_data_files_row_aligned
    [⟨["NC_TAU_in", "a", "b"], [[9, 1, 2], [10, 3, 4], [11, 5, 6]]⟩]
    ["a"] ["b"] [] [] [] (fun _ => (0, 1)) (fun _ => (0, 1)) none none true
    [[((3 : Rat) - 0) / 1], [((5 : Rat) - 0) / 1]]
    [[((4 : Rat) - 0) / 1], [((6 : Rat) - 0) / 1]] (by rfl)

theorem str_contains_iff {l : List String} {a : String} :
    l.contains a = true ↔ a ∈ l :=
  List.elem_iff

theorem readFile_missing_col {ic oc : List String} {df : DataFrame}
    (h : ∃ c, (c ∈ ic ∨ c ∈ oc) ∧ c ∉ df.columns) :
    ∃ e, readFile ic oc df = .error e := by
  unfold readFile
  by_cases h1 : ¬ "NC_TAU_in" ∈ df.columns
  · rw [if_pos h1]
    exact ⟨_, rfl⟩
  · rw [if_neg h1]
    by_cases h2 : ¬ ic.all (df.columns.contains ·)
    · rw [if_pos h2]
      exact ⟨_, rfl⟩
    · rw [if_neg h2]
      by_cases h3 : ¬ oc.all (df.columns.contains ·)
      · rw [if_pos h3]
        exact ⟨_, rfl⟩
      · exfalso
        rw [not_not] at h2 h3
        obtain ⟨c, hc, hnc⟩ := h
        rcases hc with hc | hc
        · exact hnc (str_contains_iff.mp (List.all_eq_true.mp h2 c hc))
        · exact hnc (str_contains_iff.mp (List.all_eq_true.mp h3 c hc))

theorem readFiles_error_of_member {ic oc : List String} :
    ∀ {files : List DataFrame},
      (∃ df ∈ files, ∃ e, readFile ic oc df = .error e) →
      ∃ e, readFiles ic oc files = .error e := by
  intro files
  induction files with
  | nil =>
    rintro ⟨df, hdf, -⟩
    simp at hdf
  | cons d rest ih =>
    rintro ⟨df, hdf, e, he⟩
    simp only [readFiles]
    cases h1 : readFile ic oc d with
    | error e' => exact ⟨e', rfl⟩
    | ok p =>
      rcases List.mem_cons.mp hdf with rfl | hdf'
      · rw [h1] at he
        exact Except.noConfusion he
      · obtain ⟨e2, he2⟩ := ih ⟨df, hdf', e, he⟩
        rw [he2]
        exact ⟨e2, rfl⟩

/-- **C7 (confirmed).** Staging fails — the error propagates out of
`assemble_data_files`, and `main` does not catch it, so the run aborts —
both when a requested input or output column is absent from some loaded
file (pandas' `KeyError`, the schema error) and when the inclusion filter
leaves no surviving row (the zero-sample `ValueError` raised by the scaler's
input check; in the degenerate case of an empty file list, `pd.concat`'s
"No objects to concatenate"). -/
theorem assemble_data_files_failure_modes (files : List DataFrame)
    (input_cols output_cols : List String)
    (input_transforms output_transforms : List (String × String))
    (tdict : List (String × (Rat → Rat)))
    (inputFit outputFit : List Rat → Rat × Rat)
    (inputPre outputPre : Option (List (Rat × Rat))) (train : Bool) :
    ((∃ df ∈ files, ∃ c, (c ∈ input_cols ∨ c ∈ output_cols) ∧ c ∉ df.columns) →
      ∃ e, assemble_data_files files input_cols output_cols input_transforms
        output_transforms tdict inputFit outputFit inputPre outputPre train =
        .error e) ∧
    (survivingRows files = [] →
      ∃ e, assemble_data_files files input_cols output_cols input_transforms
        output_transforms tdict inputFit outputFit inputPre outputPre train =
        .error e) := by
  constructor
  · rintro ⟨df, hdf, hc⟩
    obtain ⟨e, he⟩ := readFiles_error_of_member ⟨df, hdf, readFile_missing_col hc⟩
    exact ⟨e, by unfold assemble_data_files; rw [he]⟩
  · intro hsurv
    cases h1 : readFiles input_cols output_cols files with
    | error e => exact ⟨e, by unfold assemble_data_files; rw [h1]⟩
    | ok pairs =>
      obtain ⟨ha, -, -⟩ := readFiles_ok_shape h1
      by_cases hemp : pairs.isEmpty
      · refine ⟨"ValueError: No objects to concatenate", ?_⟩
        unfold assemble_data_files
        rw [h1]
        dsimp only
        rw [if_pos hemp]
      · have hin : (pairs.map Prod.fst).flatten = ([] : List (List Rat)) := by
          rw [ha, ← survivingRows_map files fun pr =>
            input_cols.map (rowCell pr.1 pr.2), hsurv]
          rfl
        cases h2 : applyTransforms input_cols tdict input_transforms
            (pairs.map Prod.fst).flatten with
        | error e =>
          refine ⟨e, ?_⟩
          unfold assemble_data_files
          rw [h1]
          dsimp only
          rw [if_neg hemp, h2]
        | ok ti =>
          obtain ⟨F, hF⟩ := applyTransforms_ok_map h2
          have hti : ti = [] := by rw [hF, hin]; rfl
          cases h3 : applyTransforms output_cols tdict output_transforms
              (pairs.map Prod.snd).flatten with
          | error e =>
            refine ⟨e, ?_⟩
            unfold assemble_data_files
            rw [h1]
            dsimp only
            rw [if_neg hemp, h2]
            dsimp only
            rw [h3]
          | ok tout =>
            refine ⟨"ValueError: Found array with 0 sample(s) while a minimum of 1 is required.", ?_⟩
            unfold assemble_data_files
            rw [h1]
            dsimp only
            rw [if_neg hemp, h2]
            dsimp only
            rw [h3]
            dsimp only
            have hscale : scaleData inputFit inputPre train input_cols.length ti =
                .error "ValueError: Found array with 0 sample(s) while a minimum of 1 is required." := by
              rw [hti]
              rfl
            rw [hscale]

/-- Witness for the staging failure modes: a file missing the requested
input column, and a file whose only row fails the inclusion filter. -/
theorem assemble_data_files_failure_modes_witness :
    (∃ e, assemble_data_files [⟨["NC_TAU_in"], [[10]]⟩] ["a"] [] [] [] []
      (fun _ => (0, 1)) (fun _ => (0, 1)) none none true = .error e) ∧
    ∃ e, assemble_data_files [⟨["NC_TAU_in"], [[9]]⟩] [] [] [] [] []
      (fun _ => (0, 1)) (fun _ => (0, 1)) none none true = .error e :=
  ⟨(assemble_data_files_failure_modes [⟨["NC_TAU_in"], [[10]]⟩] ["a"] [] [] [] []
      (fun _ => (0, 1)) (fun _ => (0, 1)) none none true).1
      ⟨⟨["NC_TAU_in"], [[10]]⟩, by simp, "a", Or.inl (by simp), by simp⟩,
   (assemble_data_files_failure_modes [⟨["NC_TAU_in"], [[9]]⟩] [] [] [] [] []
      (fun _ => (0, 1)) (fun _ => (0, 1)) none none true).2 (by rfl)⟩

theorem survivingRows_length (files : List DataFrame) :
    (survivingRows files).length =
      (files.map fun df => (filterFileRows df).length).sum := by
  unfold survivingRows
  rw [List.length_flatten, List.map_map]
  congr 1
  refine List.map_congr_left fun df _ => ?_
  simp [Function.comp]

/-- **C10 (confirmed).** The stager's row filter is the fixed predicate
`NC_TAU_in ≥ 10`: a row is retained iff that column's value is at least 10
(so the comparison is inclusive — the concrete conjunct keeps the row whose
value is exactly 10 and drops the 9 row); neither the column nor the
threshold is an argument of `filterFileRows`, and for every choice of the
caller-supplied arguments a successful staging call returns exactly one
matrix row per row passing this filter. -/
theorem assemble_data_files_filter_threshold :
    (∀ (df : DataFrame) (r : List Rat),
        r ∈ filterFileRows df ↔
          r ∈ df.rows ∧ (10 : Rat) ≤ rowCell df.columns r "NC_TAU_in") ∧
    (∀ (files : List DataFrame) (input_cols output_cols : List String)
        (input_transforms output_transforms : List (String × String))
        (tdict : List (String × (Rat → Rat)))
        (inputFit outputFit : List Rat → Rat × Rat)
        (inputPre outputPre : Option (List (Rat × Rat))) (train : Bool)
        (im om : List (List Rat)),
        assemble_data_files files input_cols output_cols input_transforms
          output_transforms tdict inputFit outputFit inputPre outputPre train =
          .ok (im, om) →
        im.length = (files.map fun df => (filterFileRows df).length).sum) ∧
    filterFileRows ⟨["NC_TAU_in", "a"], [[10, 1], [9, 2], [11, 3]]⟩ =
      [[10, 1], [11, 3]] := by
  refine ⟨?_, ?_, by rfl⟩
  · intro df r
    unfold filterFileRows
    rw [List.mem_filter, decide_eq_true_eq]
  · intro files input_cols output_cols input_transforms output_transforms tdict
      inputFit outputFit inputPre outputPre train im om hok
    obtain ⟨F, G, hF, hG, -⟩ := assemble_data_files_ok_maps files input_cols
      output_cols input_transforms output_transforms tdict inputFit outputFit
      inputPre outputPre train im om hok
    rw [hF, List.length_map, survivingRows_length]

/-- Witness for the filter theorem: the concrete staging call keeps exactly
the two rows whose `NC_TAU_in` is at least 10. -/
theorem assemble_data_files_filter_threshold_witness :
    ([[((3 : Rat) - 0) / 1], [((5 : Rat) - 0) / 1]] : List (List Rat)).length =
      (([⟨["NC_TAU_in", "a", "b"], [[9, 1, 2], [10, 3, 4], [11, 5, 6]]⟩] :
        List DataFrame).map fun df => (filterFileRows df).length).sum :=
  assemble_data_files_filter_threshold.2.1
    [⟨["NC_TAU_in", "a", "b"], [[9, 1, 2], [10, 3, 4], [11, 5, 6]]⟩]
    ["a"] ["b"] [] [] [] (fun _ => (0, 1)) (fun _ => (0, 1)) none none true
    [[((3 : Rat) - 0) / 1], [((5 : Rat) - 0) / 1]]
    [[((4 : Rat) - 0) / 1], [((6 : Rat) - 0) / 1]] (by rfl)

/-! ## `search_ml_model_params.py`: the broadcast/submit orchestration of `main` -/

/-- One scheduler call made by `main` after staging: `broadcast` is
`client.scatter(dataset)` — it returns the handle under which the dataset is
now known — and `submit` is
`client.submit(validate_model_configuration, …)` carrying only handles,
never a dataset. -/
inductive SchedulerEvent
  | broadcast (dataset : String) (handle : Nat)
  | submit (taskFn : String) (handles : List Nat)
deriving DecidableEq

/-- Modelled from the spec: the scheduler's `broadcast` "transmits a
StagedDataset to every worker exactly once and returns an opaque Handle",
so a broadcast event costs one transmission per worker while a submit
retransmits nothing.  (The transport itself is dask's `scatter`/`submit`;
only their call sites are in `src/`.) -/
def transmissions (workers : Nat) : SchedulerEvent → Nat
  | .broadcast _ _ => workers
  | .submit _ _ => 0

def isBroadcast : SchedulerEvent → Bool
  | .broadcast _ _ => true
  | .submit _ _ => false

/-- The scheduler-facing trace of `main` (lines 56–84): scatter each of the
four staged matrices once — `train_input`, `train_output`, `val_input`,
`val_output` — and then submit one `validate_model_configuration` task per
sampled configuration of every model family, each task referencing the four
returned handles.  `models` pairs each family name with the number of
configurations its sampler yields. -/
def mainSchedulerTrace (models : List (String × Nat)) : List SchedulerEvent :=
  [.broadcast "train_input" 0, .broadcast "train_output" 1,
   .broadcast "val_input" 2, .broadcast "val_output" 3] ++
  (models.flatMap fun m => (List.range m.2).map fun _ =>
    .submit "validate_model_configuration" [0, 1, 2, 3])

theorem mainSchedulerTrace_submit_shape (models : List (String × Nat)) :
    ∀ e ∈ models.flatMap fun m => (List.range m.2).map fun _ =>
        SchedulerEvent.submit "validate_model_configuration" [0, 1, 2, 3],
      e = SchedulerEvent.submit "validate_model_configuration" [0, 1, 2, 3] := by
  intro e he
  rw [List.mem_flatMap] at he
  obtain ⟨m, -, he⟩ := he
  rw [List.mem_map] at he
  obtain ⟨-, -, he⟩ := he
  exact he.symm

/-- **C8 (confirmed; transport spec-modelled).** Over the whole run the
orchestrator broadcasts exactly the four staged datasets — so the total
transmission cost is `4 * workers`, independent of how many tasks are
submitted — while every one of the `Σ configurations` submissions carries
only handles returned by those broadcasts, never a dataset. -/
theorem mainSchedulerTrace_broadcast_cost (models : List (String × Nat))
    (workers : Nat) :
    ((mainSchedulerTrace models).map (transmissions workers)).sum = 4 * workers ∧
    ((mainSchedulerTrace models).filter isBroadcast).length = 4 ∧
    ((mainSchedulerTrace models).filter fun e => !(isBroadcast e)).length =
      (models.map Prod.snd).sum ∧
    ∀ e ∈ mainSchedulerTrace models, ∀ fn hs, e = .submit fn hs →
      ∀ h ∈ hs, ∃ ds, SchedulerEvent.broadcast ds h ∈ mainSchedulerTrace models := by
  have hsub := mainSchedulerTrace_submit_shape models
  refine ⟨?_, ?_, ?_, ?_⟩
  · unfold mainSchedulerTrace
    rw [List.map_append, List.sum_append]
    have h0 : ((models.flatMap fun m => (List.range m.2).map fun _ =>
        SchedulerEvent.submit "validate_model_configuration" [0, 1, 2, 3]).map
          (transmissions workers)).sum = 0 := by
      refine List.sum_eq_zero fun x hx => ?_
      rw [List.mem_map] at hx
      obtain ⟨e, he, hx⟩ := hx
      rw [hsub e he] at hx
      exact hx.symm
    rw [h0]
    simp [transmissions]
    ring
  · unfold mainSchedulerTrace
    rw [List.filter_append]
    have h0 : (models.flatMap fun m => (List.range m.2).map fun _ =>
        SchedulerEvent.submit "validate_model_configuration" [0, 1, 2, 3]).filter
          isBroadcast = [] := by
      rw [List.filter_eq_nil_iff]
      intro e he
      rw [hsub e he]
      simp [isBroadcast]
    rw [h0]
    rfl
  · unfold mainSchedulerTrace
    rw [List.filter_append]
    have h0 : ([SchedulerEvent.broadcast "train_input" 0,
        .broadcast "train_output" 1, .broadcast "val_input" 2,
        .broadcast "val_output" 3].filter fun e => !(isBroadcast e)) = [] := by
      rfl
    have h1 : (models.flatMap fun m => (List.range m.2).map fun _ =>
        SchedulerEvent.submit "validate_model_configuration" [0, 1, 2, 3]).filter
          (fun e => !(isBroadcast e)) =
        models.flatMap fun m => (List.range m.2).map fun _ =>
          SchedulerEvent.submit "validate_model_configuration" [0, 1, 2, 3] := by
      rw [List.filter_eq_self]
      intro e he
      rw [hsub e he]
      rfl
    rw [h0, h1, List.nil_append, List.length_flatMap]
    refine congrArg List.sum (List.map_congr_left fun m _ => ?_)
    simp
  · intro e he fn hs heq h hh
    subst heq
    rcases List.mem_append.mp he with hB | hS
    · simp at hB
    · have := hsub _ hS
      have hhs : hs = [0, 1, 2, 3] := by
        injection this with h1 h2
      rw [hhs] at hh
      simp only [List.mem_cons, List.not_mem_nil, or_false] at hh
      unfold mainSchedulerTrace
      rcases hh with rfl | rfl | rfl | rfl
      · exact ⟨"train_input", by simp⟩
      · exact ⟨"train_output", by simp⟩
      · exact ⟨"val_input", by simp⟩
      · exact ⟨"val_output", by simp⟩

/-- Witness for the broadcast-cost theorem: two model families with 2 and 1
sampled configurations on 3 workers — 4·3 transmissions total, and handle 2
of a submitted task was issued by the `val_input` broadcast. -/
theorem mainSchedulerTrace_broadcast_cost_witness :
    ((mainSchedulerTrace [("RandomForestRegressor", 2), ("DenseNeuralNetwork", 1)]).map
      (transmissions 3)).sum = 4 * 3 ∧
    ∃ ds, SchedulerEvent.broadcast ds 2 ∈
      mainSchedulerTrace [("RandomForestRegressor", 2), ("DenseNeuralNetwork", 1)] :=
  ⟨(mainSchedulerTrace_broadcast_cost
      [("RandomForestRegressor", 2), ("DenseNeuralNetwork", 1)] 3).1,
   (mainSchedulerTrace_broadcast_cost
      [("RandomForestRegressor", 2), ("DenseNeuralNetwork", 1)] 3).2.2.2
     (SchedulerEvent.submit "validate_model_configuration" [0, 1, 2, 3]) (by decide)
     "validate_model_configuration" [0, 1, 2, 3] rfl 2 (by decide)⟩
